import Mathlib

/-!
Verification of the caro_100 five-in-a-row engine.

The C++ sources are embedded shallowly:
* grids (`std::vector<std::vector<int>>`) become `List (List ℤ)`;
* C `int` arithmetic becomes `ℤ` (no operation in the modelled code
  overflows 32 bits on the boards considered);
* while-loops that walk along a board line become fuel-bounded
  recursions, with the fuel chosen large enough (one more than the
  board size) that the walk always exits by the loop condition.
-/

namespace Caro

/-- `l[n]`, with default `d` out of range (vector indexing). -/
def nthD {α : Type} (l : List α) (n : ℕ) (d : α) : α :=
  match l, n with
  | [], _ => d
  | a :: _, 0 => a
  | _ :: t, n + 1 => nthD t n d

/-- `l[n] = v` (in-place vector write; no-op out of range). -/
def setNth {α : Type} (l : List α) (n : ℕ) (v : α) : List α :=
  match l, n with
  | [], _ => []
  | _ :: t, 0 => v :: t
  | a :: t, n + 1 => a :: setNth t n v

@[simp] lemma length_setNth {α : Type} (l : List α) (n : ℕ) (v : α) :
    (setNth l n v).length = l.length := by
  induction l generalizing n with
  | nil => rfl
  | cons a t ih => cases n <;> simp [setNth, ih]

lemma nthD_setNth_self {α : Type} (l : List α) (n : ℕ) (v d : α)
    (h : n < l.length) : nthD (setNth l n v) n d = v := by
  induction l generalizing n with
  | nil => simp at h
  | cons a t ih =>
    cases n with
    | zero => rfl
    | succ m => exact ih m (by simpa using h)

lemma nthD_setNth_ne {α : Type} (l : List α) (n m : ℕ) (v d : α)
    (h : n ≠ m) : nthD (setNth l n v) m d = nthD l m d := by
  induction l generalizing n m with
  | nil => cases n <;> rfl
  | cons a t ih =>
    cases n with
    | zero => cases m with
      | zero => exact absurd rfl h
      | succ k => rfl
    | succ j => cases m with
      | zero => rfl
      | succ k => exact ih j k (by omega)

lemma nthD_of_le_length {α : Type} (l : List α) (n : ℕ) (d : α)
    (h : l.length ≤ n) : nthD l n d = d := by
  induction l generalizing n with
  | nil => rfl
  | cons a t ih =>
    cases n with
    | zero => simp at h
    | succ m => exact ih m (by simpa using h)

lemma mem_of_nthD {α : Type} (l : List α) (n : ℕ) (d : α) (h : n < l.length) :
    nthD l n d ∈ l := by
  induction l generalizing n with
  | nil => simp at h
  | cons a t ih =>
    cases n with
    | zero => exact List.mem_cons_self a t
    | succ m => exact List.mem_cons_of_mem a (ih m (by simpa using h))

/-- A grid is a list of rows, each row a list of cell values
(0 = empty, 1 = player one, 2 = player two). -/
abbrev Grid := List (List ℤ)

/-- `isValidPosition` from the C++ sources: `size = board.size()` and
`row >= 0 && row < size && col >= 0 && col < size`. -/
def isValidPos (g : Grid) (row col : ℤ) : Bool :=
  decide (0 ≤ row) && decide (row < (g.length : ℤ)) &&
  decide (0 ≤ col) && decide (col < (g.length : ℤ))

/-- Reading `board[row][col]`.  All reads in the C++ sources are guarded
by `isValidPos`, so the default value 0 used out of range never matters. -/
def cellAt (g : Grid) (row col : ℤ) : ℤ :=
  if 0 ≤ row ∧ 0 ≤ col then nthD (nthD g row.toNat []) col.toNat 0 else 0

/-- Writing `board[row][col] = v`.  As with `cellAt`, every write in the
sources is at a valid position. -/
def setCell (g : Grid) (row col : ℤ) (v : ℤ) : Grid :=
  if 0 ≤ row ∧ 0 ≤ col then
    setNth g row.toNat (setNth (nthD g row.toNat []) col.toNat v)
  else g

/-- Rows all have the board length (the grids built by the sources are
square; C++ indexing presupposes it). -/
def Square (g : Grid) : Prop := ∀ r ∈ g, r.length = g.length

instance squareDecidable (g : Grid) : Decidable (Square g) :=
  List.decidableBAll _ g

/-- The four scan directions of `GameLogic::DIRECTIONS`:
horizontal, vertical and the two diagonals. -/
def DIRECTIONS : List (ℤ × ℤ) := [(0, 1), (1, 0), (1, 1), (1, -1)]

lemma isValidPos_iff {g : Grid} {row col : ℤ} :
    isValidPos g row col = true ↔
      0 ≤ row ∧ row < (g.length : ℤ) ∧ 0 ≤ col ∧ col < (g.length : ℤ) := by
  simp [isValidPos, and_assoc]

@[simp] lemma length_setCell (g : Grid) (row col v : ℤ) :
    (setCell g row col v).length = g.length := by
  unfold setCell; split <;> simp

lemma cellAt_setCell_self {g : Grid} {row col : ℤ} (v : ℤ)
    (hv : isValidPos g row col = true) (hsq : Square g) :
    cellAt (setCell g row col v) row col = v := by
  obtain ⟨h1, h2, h3, h4⟩ := isValidPos_iff.mp hv
  have hpos : 0 ≤ row ∧ 0 ≤ col := ⟨h1, h3⟩
  have hrow : row.toNat < g.length := by omega
  have hrl : (nthD g row.toNat []).length = g.length :=
    hsq _ (mem_of_nthD g row.toNat [] hrow)
  have hcol : col.toNat < (nthD g row.toNat []).length := by omega
  rw [cellAt, if_pos hpos, setCell, if_pos hpos,
    nthD_setNth_self _ _ _ _ hrow, nthD_setNth_self _ _ _ _ hcol]

lemma cellAt_setCell_ne {g : Grid} {row col row' col' : ℤ} (v : ℤ)
    (h : ¬(row = row' ∧ col = col')) :
    cellAt (setCell g row col v) row' col' = cellAt g row' col' := by
  unfold setCell cellAt
  by_cases hw : 0 ≤ row ∧ 0 ≤ col
  · simp only [if_pos hw]
    by_cases hr : 0 ≤ row' ∧ 0 ≤ col'
    · simp only [if_pos hr]
      by_cases hrr : row.toNat = row'.toNat
      · have hrow : row = row' := by omega
        have hcol : col ≠ col' := fun hc => h ⟨hrow, hc⟩
        have hcc : col.toNat ≠ col'.toNat := by omega
        by_cases hlen : row'.toNat < g.length
        · rw [hrr, nthD_setNth_self _ _ _ _ hlen, nthD_setNth_ne _ _ _ _ _ hcc]
        · have hle : g.length ≤ row'.toNat := by omega
          rw [hrr,
            nthD_of_le_length (setNth g row'.toNat
              (setNth (nthD g row'.toNat []) col.toNat v)) row'.toNat []
              (by simpa using hle),
            nthD_of_le_length g row'.toNat [] hle]
      · rw [nthD_setNth_ne _ _ _ _ _ hrr]
    · simp only [if_neg hr]
  · simp only [if_neg hw]

namespace GLogic

/-! Embedding of `src/src/gamelogic.cpp` (class `GameLogic`). -/

/-- Result enum of `GameLogic::validateMove`. -/
inductive MoveResult where
  | VALID
  | OUT_OF_BOUNDS
  | CELL_OCCUPIED
  | INVALID_PLAYER
deriving DecidableEq, Repr

/-- Pattern tiers of `GameLogic::PatternType`. -/
inductive PatternType where
  | NONE
  | SINGLE
  | PAIR
  | THREE_OPEN
  | THREE_SEMI
  | FOUR_OPEN
  | FOUR_SEMI
  | FIVE
deriving DecidableEq, Repr

/-- `GameLogic::validateMove`: player identity first, then bounds, then
occupancy. -/
def validateMove (g : Grid) (row col p : ℤ) : MoveResult :=
  if p ≠ 1 ∧ p ≠ 2 then .INVALID_PLAYER
  else if ¬(isValidPos g row col = true) then .OUT_OF_BOUNDS
  else if cellAt g row col ≠ 0 then .CELL_OCCUPIED
  else .VALID

/-- Loop body of `GameLogic::countConsecutive`: walk from `(x, y)` in
direction `(dx, dy)` while the position is valid and holds `p`.  The fuel
replaces the C++ while-loop; `countConsecutive` supplies strictly more fuel
than the walk can consume. -/
def ccAux (g : Grid) (p dx dy : ℤ) : ℕ → ℤ → ℤ → ℕ
  | 0, _, _ => 0
  | f + 1, x, y =>
    if isValidPos g x y = true ∧ cellAt g x y = p then
      ccAux g p dx dy f (x + dx) (y + dy) + 1
    else 0

/-- `GameLogic::countConsecutive(board, row, col, dx, dy, player)`. -/
def countConsecutive (g : Grid) (row col dx dy p : ℤ) : ℕ :=
  ccAux g p dx dy (g.length + 1) row col

/-- `GameLogic::countInLine`: pieces before plus pieces after plus the
center cell itself when it matches `player`. -/
def countInLine (g : Grid) (row col dx dy p : ℤ) : ℕ :=
  countConsecutive g (row + dx) (col + dy) dx dy p +
  countConsecutive g (row - dx) (col - dy) (-dx) (-dy) p +
  (if isValidPos g row col = true ∧ cellAt g row col = p then 1 else 0)

/-- `GameLogic::checkWinAtPosition`: the cell must be valid and hold
`player`, and some direction must carry a line of length `WIN_LENGTH = 5`. -/
def checkWinAtPosition (g : Grid) (row col p : ℤ) : Bool :=
  if ¬(isValidPos g row col = true) ∨ cellAt g row col ≠ p then false
  else DIRECTIONS.any fun d => decide (5 ≤ countInLine g row col d.1 d.2 p)

/-- `GameLogic::getPatternScore`. -/
def getPatternScore : PatternType → ℤ
  | .NONE => 0
  | .SINGLE => 1
  | .PAIR => 10
  | .THREE_SEMI => 100
  | .THREE_OPEN => 1000
  | .FOUR_SEMI => 10000
  | .FOUR_OPEN => 100000
  | .FIVE => 1000000

/-- `GameLogic::classifyPattern`. -/
def classifyPattern (consecutiveCount openEnds : ℤ) : PatternType :=
  if 5 ≤ consecutiveCount then .FIVE
  else if consecutiveCount = 4 then
    if 2 ≤ openEnds then .FOUR_OPEN
    else if openEnds = 1 then .FOUR_SEMI else .NONE
  else if consecutiveCount = 3 then
    if 2 ≤ openEnds then .THREE_OPEN
    else if openEnds = 1 then .THREE_SEMI else .NONE
  else if consecutiveCount = 2 then .PAIR
  else if consecutiveCount = 1 then .SINGLE
  else .NONE

/-- `GameLogic::isWinningThreat`: false off-board or on an occupied cell,
otherwise place `player` on a copy and test `checkWinAtPosition`. -/
def isWinningThreat (g : Grid) (row col p : ℤ) : Bool :=
  if ¬(isValidPos g row col = true) ∨ cellAt g row col ≠ 0 then false
  else checkWinAtPosition (setCell g row col p) row col p

/-- `GameLogic::isBlockingThreat`: same guard, but tests whether the
opponent would win by playing here. -/
def isBlockingThreat (g : Grid) (row col p : ℤ) : Bool :=
  if ¬(isValidPos g row col = true) ∨ cellAt g row col ≠ 0 then false
  else
    let opponent : ℤ := if p = 1 then 2 else 1
    checkWinAtPosition (setCell g row col opponent) row col opponent

/-- `GameLogic::findThreats`: all empty cells where `player` would win. -/
def findThreats (g : Grid) (p : ℤ) : List (ℤ × ℤ) :=
  (List.range g.length).flatMap fun (i : ℕ) =>
    (List.range g.length).filterMap fun (j : ℕ) =>
      if cellAt g (i : ℤ) (j : ℤ) = 0 ∧
         isWinningThreat g (i : ℤ) (j : ℤ) p = true
      then some ((i : ℤ), (j : ℤ)) else none

end GLogic

/-- Positions `row + k·d₁, col + k·d₂` for every offset `-a ≤ k ≤ b` are
on the board and hold `p`: a contiguous run of length `a + 1 + b` through
the cell along direction `d`.  The claim's notion of a run through a cell,
stated independently of the walking code. -/
def RunThrough (g : Grid) (row col : ℤ) (d : ℤ × ℤ) (p : ℤ) (a b : ℕ) : Prop :=
  ∀ k : ℤ, -(a : ℤ) ≤ k → k ≤ (b : ℤ) →
    isValidPos g (row + k * d.1) (col + k * d.2) = true ∧
    cellAt g (row + k * d.1) (col + k * d.2) = p

lemma runThrough_iff_all {g row col d p a b} :
    RunThrough g row col d p a b ↔
      ∀ i ∈ List.range (a + b + 1),
        isValidPos g (row + ((i : ℤ) - a) * d.1) (col + ((i : ℤ) - a) * d.2) = true ∧
        cellAt g (row + ((i : ℤ) - a) * d.1) (col + ((i : ℤ) - a) * d.2) = p := by
  constructor
  · intro h i hi
    rw [List.mem_range] at hi
    exact h ((i : ℤ) - a) (by omega) (by omega)
  · intro h k hk1 hk2
    have hi : (k + a).toNat ∈ List.range (a + b + 1) := by
      rw [List.mem_range]; omega
    have := h _ hi
    have heq : ((((k + a).toNat : ℤ)) - a) = k := by omega
    rwa [heq] at this

instance {g row col d p a b} : Decidable (RunThrough g row col d p a b) :=
  decidable_of_iff _ runThrough_iff_all.symm

namespace GLogic

lemma ccAux_valid (g : Grid) (p dx dy : ℤ) :
    ∀ (f : ℕ) (x y : ℤ) (k : ℕ), k < ccAux g p dx dy f x y →
      isValidPos g (x + k * dx) (y + k * dy) = true ∧
      cellAt g (x + k * dx) (y + k * dy) = p := by
  intro f
  induction f with
  | zero => intro x y k hk; simp [ccAux] at hk
  | succ f ih =>
    intro x y k hk
    rw [ccAux] at hk
    split at hk
    · next hcond =>
      cases k with
      | zero => simpa using hcond
      | succ m =>
        have hm : m < ccAux g p dx dy f (x + dx) (y + dy) := by omega
        have := ih (x + dx) (y + dy) m hm
        have hx : x + dx + (m : ℤ) * dx = x + ((m : ℕ) + 1 : ℕ) * dx := by
          push_cast; ring
        have hy : y + dy + (m : ℤ) * dy = y + ((m : ℕ) + 1 : ℕ) * dy := by
          push_cast; ring
        rwa [hx, hy] at this
    · omega

lemma ccAux_ge (g : Grid) (p dx dy : ℤ) :
    ∀ (f n : ℕ) (x y : ℤ), n ≤ f →
      (∀ k : ℕ, k < n →
        isValidPos g (x + k * dx) (y + k * dy) = true ∧
        cellAt g (x + k * dx) (y + k * dy) = p) →
      n ≤ ccAux g p dx dy f x y := by
  intro f
  induction f with
  | zero => intro n x y hn _; omega
  | succ f ih =>
    intro n x y hn h
    cases n with
    | zero => omega
    | succ m =>
      have h0 := h 0 (by omega)
      simp only [Nat.cast_zero, zero_mul, add_zero] at h0
      rw [ccAux, if_pos h0]
      have hrec : m ≤ ccAux g p dx dy f (x + dx) (y + dy) := by
        refine ih m (x + dx) (y + dy) (by omega) ?_
        intro k hk
        have := h (k + 1) (by omega)
        have hx : x + ((k : ℕ) + 1 : ℕ) * dx = x + dx + (k : ℤ) * dx := by
          push_cast; ring
        have hy : y + ((k : ℕ) + 1 : ℕ) * dy = y + dy + (k : ℤ) * dy := by
          push_cast; ring
        rwa [hx, hy] at this
      omega

/-- Along any of the four scan directions, two valid positions of the same
line are at most a board length apart: walking fuel `g.length + 1` is
enough for the line-walk loops. -/
lemma offset_bound {g : Grid} {row col : ℤ} {d : ℤ × ℤ} {t : ℤ}
    (hd : d ∈ DIRECTIONS) (h0 : isValidPos g row col = true)
    (ht : isValidPos g (row + t * d.1) (col + t * d.2) = true) :
    -(g.length : ℤ) ≤ t ∧ t ≤ (g.length : ℤ) := by
  obtain ⟨a1, a2, a3, a4⟩ := isValidPos_iff.mp h0
  obtain ⟨b1, b2, b3, b4⟩ := isValidPos_iff.mp ht
  simp only [DIRECTIONS, List.mem_cons, List.not_mem_nil, or_false] at hd
  rcases hd with h | h | h | h <;>
    (subst h; simp only [mul_zero, mul_one, add_zero] at b1 b2 b3 b4; omega)

lemma countInLine_ge_of_run {g : Grid} {row col : ℤ} {d : ℤ × ℤ} {p : ℤ}
    {a b : ℕ} (hd : d ∈ DIRECTIONS) (hr : RunThrough g row col d p a b) :
    a + 1 + b ≤ countInLine g row col d.1 d.2 p := by
  have h0 := hr 0 (by omega) (by omega)
  simp only [zero_mul, add_zero] at h0
  have hbound_b : b ≤ g.length := by
    have := offset_bound hd h0.1 (hr b (by omega) (by omega)).1
    omega
  have hbound_a : a ≤ g.length := by
    have := offset_bound hd h0.1 (hr (-(a : ℤ)) (by omega) (by omega)).1
    omega
  have hpos : b ≤ countConsecutive g (row + d.1) (col + d.2) d.1 d.2 p := by
    refine ccAux_ge g p d.1 d.2 (g.length + 1) b _ _ (by omega) ?_
    intro k hk
    have := hr ((k : ℤ) + 1) (by omega) (by omega)
    have hx : row + ((k : ℤ) + 1) * d.1 = row + d.1 + (k : ℤ) * d.1 := by ring
    have hy : col + ((k : ℤ) + 1) * d.2 = col + d.2 + (k : ℤ) * d.2 := by ring
    rwa [hx, hy] at this
  have hneg : a ≤ countConsecutive g (row - d.1) (col - d.2) (-d.1) (-d.2) p := by
    refine ccAux_ge g p (-d.1) (-d.2) (g.length + 1) a _ _ (by omega) ?_
    intro k hk
    have := hr (-((k : ℤ) + 1)) (by omega) (by omega)
    have hx : row + -((k : ℤ) + 1) * d.1 = row - d.1 + (k : ℤ) * -d.1 := by ring
    have hy : col + -((k : ℤ) + 1) * d.2 = col - d.2 + (k : ℤ) * -d.2 := by ring
    rwa [hx, hy] at this
  have hcenter :
      (if isValidPos g row col = true ∧ cellAt g row col = p then 1 else 0) = 1 :=
    if_pos h0
  unfold countInLine
  omega

lemma run_of_countInLine {g : Grid} {row col : ℤ} {d : ℤ × ℤ} {p : ℤ}
    (hin : isValidPos g row col = true) (hc : cellAt g row col = p)
    (h5 : 5 ≤ countInLine g row col d.1 d.2 p) :
    ∃ a b : ℕ, 5 ≤ a + 1 + b ∧ RunThrough g row col d p a b := by
  set P := countConsecutive g (row + d.1) (col + d.2) d.1 d.2 p with hP
  set N := countConsecutive g (row - d.1) (col - d.2) (-d.1) (-d.2) p with hN
  refine ⟨N, P, ?_, ?_⟩
  · have : countInLine g row col d.1 d.2 p = P + N + 1 := by
      unfold countInLine
      rw [if_pos ⟨hin, hc⟩, ← hP, ← hN]
    omega
  · intro k hk1 hk2
    rcases lt_trichotomy k 0 with hneg | hzero | hpos
    · have hm : (-k - 1).toNat < N := by omega
      have := ccAux_valid g p (-d.1) (-d.2) (g.length + 1) (row - d.1) (col - d.2)
        (-k - 1).toNat hm
      have hx : row - d.1 + ((-k - 1).toNat : ℤ) * -d.1 = row + k * d.1 := by
        have : ((-k - 1).toNat : ℤ) = -k - 1 := by omega
        rw [this]; ring
      have hy : col - d.2 + ((-k - 1).toNat : ℤ) * -d.2 = col + k * d.2 := by
        have : ((-k - 1).toNat : ℤ) = -k - 1 := by omega
        rw [this]; ring
      rwa [hx, hy] at this
    · subst hzero
      simpa using And.intro hin hc
    · have hm : (k - 1).toNat < P := by omega
      have := ccAux_valid g p d.1 d.2 (g.length + 1) (row + d.1) (col + d.2)
        (k - 1).toNat hm
      have hx : row + d.1 + ((k - 1).toNat : ℤ) * d.1 = row + k * d.1 := by
        have : ((k - 1).toNat : ℤ) = k - 1 := by omega
        rw [this]; ring
      have hy : col + d.2 + ((k - 1).toNat : ℤ) * d.2 = col + k * d.2 := by
        have : ((k - 1).toNat : ℤ) = k - 1 := by omega
        rw [this]; ring
      rwa [hx, hy] at this

end GLogic

/-- A 7×7 grid with a horizontal five-in-a-row for player 1 on row 3,
columns 1–5. -/
def W1 : Grid :=
  [[0, 0, 0, 0, 0, 0, 0],
   [0, 0, 0, 0, 0, 0, 0],
   [0, 0, 0, 0, 0, 0, 0],
   [0, 1, 1, 1, 1, 1, 0],
   [0, 0, 0, 0, 0, 0, 0],
   [0, 0, 0, 0, 0, 0, 0],
   [0, 0, 0, 0, 0, 0, 0]]

/-- C1: for every grid, in-bounds cell and player in {1,2},
`checkWinAtPosition` is true iff the cell holds the player and, along one
of the four axis directions, a contiguous run of the player's stones of
length at least 5 passes through the cell. -/
theorem C1_checkWinAtPosition_iff_run (g : Grid) (row col p : ℤ)
    (hp : p = 1 ∨ p = 2) (hin : isValidPos g row col = true) :
    GLogic.checkWinAtPosition g row col p = true ↔
      (cellAt g row col = p ∧
        ∃ d ∈ DIRECTIONS, ∃ a b : ℕ, 5 ≤ a + 1 + b ∧
          RunThrough g row col d p a b) := by
  by_cases hc : cellAt g row col = p
  · have hguard : ¬(¬(isValidPos g row col = true) ∨ cellAt g row col ≠ p) := by
      push_neg; exact ⟨hin, hc⟩
    rw [GLogic.checkWinAtPosition, if_neg hguard]
    constructor
    · intro h
      rw [List.any_eq_true] at h
      obtain ⟨d, hd, hdec⟩ := h
      rw [decide_eq_true_eq] at hdec
      exact ⟨hc, d, hd, GLogic.run_of_countInLine hin hc hdec⟩
    · rintro ⟨-, d, hd, a, b, h5, hr⟩
      rw [List.any_eq_true]
      refine ⟨d, hd, ?_⟩
      rw [decide_eq_true_eq]
      have := GLogic.countInLine_ge_of_run hd hr
      omega
  · have hguard : ¬(isValidPos g row col = true) ∨ cellAt g row col ≠ p :=
      Or.inr hc
    rw [GLogic.checkWinAtPosition, if_pos hguard]
    exact ⟨fun h => Bool.noConfusion h, fun h => absurd h.1 hc⟩

/-- Witness for C1: the hypotheses hold at the concrete grid `W1`, cell
(3,3), player 1, and the equivalence produces the win there; a run of
exactly 4 (cell (3,1) of `W1` seen from column 2 to 5 minus one, i.e.
the same grid with the run cut to 4) is checked false directly below via
the equivalence's left-to-right direction being unavailable. -/
theorem C1_witness :
    ((1 : ℤ) = 1 ∨ (1 : ℤ) = 2) ∧ isValidPos W1 3 3 = true ∧
      GLogic.checkWinAtPosition W1 3 3 1 = true :=
  ⟨Or.inl rfl, by decide,
    (C1_checkWinAtPosition_iff_run W1 3 3 1 (Or.inl rfl) (by decide)).mpr
      ⟨by decide, (0, 1), by decide, 2, 2, by decide, by decide⟩⟩

/-- C5: `validateMove` checks the player identity first, then bounds, then
occupancy; in particular an out-of-bounds coordinate together with an
invalid player id reports `INVALID_PLAYER`. -/
theorem C5_validateMove_precedence (g : Grid) (row col p : ℤ) :
    (¬(p = 1 ∨ p = 2) →
      GLogic.validateMove g row col p = .INVALID_PLAYER) ∧
    ((p = 1 ∨ p = 2) → isValidPos g row col = false →
      GLogic.validateMove g row col p = .OUT_OF_BOUNDS) ∧
    ((p = 1 ∨ p = 2) → isValidPos g row col = true → cellAt g row col ≠ 0 →
      GLogic.validateMove g row col p = .CELL_OCCUPIED) ∧
    ((p = 1 ∨ p = 2) → isValidPos g row col = true → cellAt g row col = 0 →
      GLogic.validateMove g row col p = .VALID) := by
  refine ⟨fun h => ?_, fun hp hv => ?_, fun hp hv ho => ?_, fun hp hv ho => ?_⟩
  · rw [GLogic.validateMove, if_pos (by tauto)]
  · rw [GLogic.validateMove, if_neg (by tauto), if_pos (by simp [hv])]
  · rw [GLogic.validateMove, if_neg (by tauto), if_neg (by simp [hv]),
      if_pos ho]
  · rw [GLogic.validateMove, if_neg (by tauto), if_neg (by simp [hv]),
      if_neg (by simp [ho])]

/-- Witness for C5: each of the four branches evaluated on a concrete
1×1 grid; in particular player 5 at the out-of-bounds cell (-1,0) reports
`INVALID_PLAYER`, not `OUT_OF_BOUNDS`. -/
theorem C5_witness :
    GLogic.validateMove [[0]] (-1) 0 5 = .INVALID_PLAYER ∧
    GLogic.validateMove [[0]] (-1) 0 1 = .OUT_OF_BOUNDS ∧
    GLogic.validateMove [[2]] 0 0 1 = .CELL_OCCUPIED ∧
    GLogic.validateMove [[0]] 0 0 1 = .VALID :=
  ⟨(C5_validateMove_precedence [[0]] (-1) 0 5).1 (by decide),
   (C5_validateMove_precedence [[0]] (-1) 0 1).2.1 (by decide) (by decide),
   (C5_validateMove_precedence [[2]] 0 0 1).2.2.1 (by decide) (by decide)
     (by decide),
   (C5_validateMove_precedence [[0]] 0 0 1).2.2.2 (by decide) (by decide)
     (by decide)⟩

/-- C6: the pattern-tier scores are the fixed table NONE=0, SINGLE=1,
PAIR=10, THREE_SEMI=100, THREE_OPEN=1000, FOUR_SEMI=10000,
FOUR_OPEN=100000, FIVE=1000000, strictly monotonic by threat severity. -/
theorem C6_patternScore_values_monotonic :
    GLogic.getPatternScore .NONE = 0 ∧
    GLogic.getPatternScore .SINGLE = 1 ∧
    GLogic.getPatternScore .PAIR = 10 ∧
    GLogic.getPatternScore .THREE_SEMI = 100 ∧
    GLogic.getPatternScore .THREE_OPEN = 1000 ∧
    GLogic.getPatternScore .FOUR_SEMI = 10000 ∧
    GLogic.getPatternScore .FOUR_OPEN = 100000 ∧
    GLogic.getPatternScore .FIVE = 1000000 ∧
    GLogic.getPatternScore .FOUR_OPEN > GLogic.getPatternScore .FOUR_SEMI ∧
    GLogic.getPatternScore .FOUR_SEMI > GLogic.getPatternScore .THREE_OPEN ∧
    GLogic.getPatternScore .THREE_OPEN > GLogic.getPatternScore .THREE_SEMI ∧
    GLogic.getPatternScore .THREE_SEMI > GLogic.getPatternScore .PAIR ∧
    GLogic.getPatternScore .PAIR > GLogic.getPatternScore .SINGLE ∧
    GLogic.getPatternScore .SINGLE > GLogic.getPatternScore .NONE ∧
    GLogic.getPatternScore .NONE = 0 := by decide

/-- C10: the threat predicates are total and return false at any
out-of-bounds or occupied position, for every grid, coordinates and
player. -/
theorem C10_threats_false_outside_or_occupied (g : Grid) (row col p : ℤ)
    (h : isValidPos g row col = false ∨ cellAt g row col ≠ 0) :
    GLogic.isWinningThreat g row col p = false ∧
    GLogic.isBlockingThreat g row col p = false := by
  have hguard : ¬(isValidPos g row col = true) ∨ cellAt g row col ≠ 0 := by
    rcases h with h | h
    · exact Or.inl (by simp [h])
    · exact Or.inr h
  exact ⟨by rw [GLogic.isWinningThreat, if_pos hguard],
         by rw [GLogic.isBlockingThreat, if_pos hguard]⟩

/-- Witness for C10: evaluated at an out-of-bounds position and at an
occupied cell of concrete 1×1 grids. -/
theorem C10_witness :
    ((isValidPos [[0]] (-1) 0 = false ∨ cellAt [[0]] (-1) 0 ≠ 0) ∧
      GLogic.isWinningThreat [[0]] (-1) 0 1 = false ∧
      GLogic.isBlockingThreat [[0]] (-1) 0 1 = false) ∧
    ((isValidPos [[2]] 0 0 = false ∨ cellAt [[2]] 0 0 ≠ 0) ∧
      GLogic.isWinningThreat [[2]] 0 0 1 = false ∧
      GLogic.isBlockingThreat [[2]] 0 0 1 = false) :=
  ⟨⟨by decide, C10_threats_false_outside_or_occupied [[0]] (-1) 0 1
      (by decide)⟩,
   ⟨by decide, C10_threats_false_outside_or_occupied [[2]] 0 0 1
      (by decide)⟩⟩

/-! Embedding of `src/src/board.cpp` (class `Board`). -/

/-- `Board::getRegionKey`: `(regionRow << 32) | (unsigned)regionCol` with
`REGION_SIZE = 10`.  The key is only ever built from in-bounds (hence
non-negative) coordinates, where shift-or equals `regionRow · 2³² +
regionCol`. -/
def regionKey (row col : ℤ) : ℤ := row / 10 * 2 ^ 32 + col / 10

/-- The keys inserted by one `Board::addActiveRegion` call: the region of
the cell and its eight neighbors, each kept only when the probe coordinate
is on the board. -/
def addRegionList (size row col : ℤ) : List ℤ :=
  ([-1, 0, 1] : List ℤ).flatMap fun dr =>
    ([-1, 0, 1] : List ℤ).filterMap fun dc =>
      if 0 ≤ row + dr * 10 ∧ row + dr * 10 < size ∧
         0 ≤ col + dc * 10 ∧ col + dc * 10 < size
      then some (regionKey (row + dr * 10) (col + dc * 10)) else none

/-- `Board::addActiveRegion` acting on the region set. -/
def addActiveRegion (size : ℤ) (s : Finset ℤ) (row col : ℤ) : Finset ℤ :=
  s ∪ (addRegionList size row col).toFinset

/-- `Board::updateActiveRegions`: rebuild the region set from the occupied
cells. -/
def regionsOf (size : ℤ) (occ : List (ℤ × ℤ)) : Finset ℤ :=
  occ.foldl (fun s cell => addActiveRegion size s cell.1 cell.2) ∅

/-- State of `class Board` (`activeRegions` is an `unordered_set`, hence a
`Finset`). -/
structure Board where
  size : ℤ
  grid : Grid
  moveCount : ℤ
  occupiedCells : List (ℤ × ℤ)
  activeRegions : Finset ℤ
  lastMoveRow : ℤ
  lastMoveCol : ℤ
  lastPlayer : ℤ
  moveHistory : List (ℤ × ℤ × ℤ)
deriving DecidableEq

/-- `Board::isValidSize`: `MIN_SIZE = 15 ≤ size ≤ MAX_SIZE = 100`. -/
def isValidSize (n : ℤ) : Bool := decide (15 ≤ n) && decide (n ≤ 100)

/-- Size kept by the `Board` constructor: the requested size, or the
fallback `DEFAULT_SIZE = 15` when it is invalid. -/
def mkSize (boardSize : ℤ) : ℤ :=
  if isValidSize boardSize = true then boardSize else 15

/-- The `Board` constructor: the grid is allocated all-empty at
`mkSize boardSize`. -/
def mkBoard (boardSize : ℤ) : Board :=
  { size := mkSize boardSize
    grid := List.replicate (mkSize boardSize).toNat
      (List.replicate (mkSize boardSize).toNat 0)
    moveCount := 0
    occupiedCells := []
    activeRegions := ∅
    lastMoveRow := -1, lastMoveCol := -1, lastPlayer := -1
    moveHistory := [] }

/-- `Board::isInBounds` (against the stored `size`). -/
def Board.isInBounds (b : Board) (row col : ℤ) : Bool :=
  decide (0 ≤ row) && decide (row < b.size) &&
  decide (0 ≤ col) && decide (col < b.size)

/-- `Board::isValidMove`: in bounds and empty. -/
def Board.isValidMove (b : Board) (row col : ℤ) : Bool :=
  b.isInBounds row col && decide (cellAt b.grid row col = 0)

/-- `Board::makeMove`.  `none` models the C++ `return false` (no
mutation); `some` carries the updated board. -/
def Board.makeMove (b : Board) (row col p : ℤ) : Option Board :=
  if ¬(b.isValidMove row col = true) ∨ ¬(p = 1 ∨ p = 2) then none
  else some { b with
    grid := setCell b.grid row col p
    moveCount := b.moveCount + 1
    lastMoveRow := row, lastMoveCol := col, lastPlayer := p
    moveHistory := b.moveHistory ++ [(row, col, p)]
    occupiedCells := b.occupiedCells ++ [(row, col)]
    activeRegions := addActiveRegion b.size b.activeRegions row col }

/-- `Board::undoLastMove`: pop the last history entry, clear its cell,
remove the first matching occupied-cell entry, restore the last-move
tracking from the new history tail, and rebuild `activeRegions`. -/
def Board.undoLastMove (b : Board) : Option Board :=
  match b.moveHistory.getLast? with
  | none => none
  | some (row, col, _) =>
    some { b with
      grid := setCell b.grid row col 0
      moveCount := b.moveCount - 1
      moveHistory := b.moveHistory.dropLast
      occupiedCells := b.occupiedCells.erase (row, col)
      lastMoveRow := (b.moveHistory.dropLast.getLast?.getD (-1, -1, -1)).1
      lastMoveCol := (b.moveHistory.dropLast.getLast?.getD (-1, -1, -1)).2.1
      lastPlayer := (b.moveHistory.dropLast.getLast?.getD (-1, -1, -1)).2.2
      activeRegions := regionsOf b.size (b.occupiedCells.erase (row, col)) }

/-- The reallocated grid of `Board::resize`: all-empty at the new size,
with the overlapping `copySize × copySize` square copied over. -/
def copyGrid (g : Grid) (copySize newSize : ℤ) : Grid :=
  (List.range newSize.toNat).map fun (i : ℕ) =>
    (List.range newSize.toNat).map fun (j : ℕ) =>
      if ((i : ℤ)) < copySize ∧ ((j : ℤ)) < copySize
      then cellAt g (i : ℤ) (j : ℤ) else 0

/-- The `remove_if` of `Board::resize`: keep the occupied cells that are
still in bounds of the new size. -/
def keepInBounds (n : ℤ) (occ : List (ℤ × ℤ)) : List (ℤ × ℤ) :=
  occ.filter fun cell =>
    decide (0 ≤ cell.1) && decide (cell.1 < n) &&
    decide (0 ≤ cell.2) && decide (cell.2 < n)

def Board.resize (b : Board) (newSize : ℤ) : Option Board :=
  if ¬(isValidSize newSize = true) then none
  else some { b with
    size := newSize
    grid := copyGrid b.grid (min b.size newSize) newSize
    occupiedCells := keepInBounds newSize b.occupiedCells
    activeRegions := regionsOf newSize (keepInBounds newSize b.occupiedCells) }

/-- `Board::reset` (no-argument form): fill every row with `EMPTY` and
clear all counters, caches and history. -/
def Board.reset (b : Board) : Board :=
  { b with
    grid := b.grid.map fun row => row.map fun _ => 0
    moveCount := 0
    lastMoveRow := -1, lastMoveCol := -1, lastPlayer := -1
    occupiedCells := []
    activeRegions := ∅
    moveHistory := [] }

/-- The `actualMoves` scan of `Board::validateState`. -/
def countNonEmpty (g : Grid) : ℕ :=
  (g.map fun row => (row.filter fun c => decide (c ≠ 0)).length).sum

/-- `Board::validateState`: `moveCount` equals the number of non-empty
cells, the occupied-cell cache size and the history length. -/
def Board.validateState (b : Board) : Bool :=
  decide ((countNonEmpty b.grid : ℤ) = b.moveCount) &&
  decide ((b.occupiedCells.length : ℤ) = b.moveCount) &&
  decide ((b.moveHistory.length : ℤ) = b.moveCount)

/-- Board states reachable through the public lifecycle: construction,
`makeMove`, `undoLastMove`, `resize` and `reset`. -/
inductive Reachable : Board → Prop
  | init (n : ℤ) : Reachable (mkBoard n)
  | move {b b' : Board} (row col p : ℤ) :
      Reachable b → b.makeMove row col p = some b' → Reachable b'
  | undo {b b' : Board} :
      Reachable b → b.undoLastMove = some b' → Reachable b'
  | sizeChange {b b' : Board} (n : ℤ) :
      Reachable b → b.resize n = some b' → Reachable b'
  | clear {b : Board} : Reachable b → Reachable b.reset

/-- The structural invariants every reachable board satisfies: the stored
size matches the grid, the grid is square, `occupiedCells` mirrors the
non-empty cells without duplicates, and `activeRegions` is exactly the
rebuild from `occupiedCells`. -/
structure BoardWF (b : Board) : Prop where
  size_eq : (b.grid.length : ℤ) = b.size
  square : Square b.grid
  mirror : ∀ row col : ℤ, (row, col) ∈ b.occupiedCells ↔
    (isValidPos b.grid row col = true ∧ cellAt b.grid row col ≠ 0)
  nodup : b.occupiedCells.Nodup
  regions : b.activeRegions = regionsOf b.size b.occupiedCells

lemma setNth_setNth {α : Type} (l : List α) (n : ℕ) (v w : α) :
    setNth (setNth l n v) n w = setNth l n w := by
  induction l generalizing n with
  | nil => rfl
  | cons a t ih => cases n <;> simp [setNth, ih]

lemma setNth_of_le_length {α : Type} (l : List α) (n : ℕ) (v : α)
    (h : l.length ≤ n) : setNth l n v = l := by
  induction l generalizing n with
  | nil => rfl
  | cons a t ih =>
    cases n with
    | zero => simp at h
    | succ m => simp only [setNth]; rw [ih m (by simpa using h)]

lemma setNth_eq_of_nthD {α : Type} (l : List α) (n : ℕ) (v d : α)
    (h : n < l.length) (he : nthD l n d = v) : setNth l n v = l := by
  induction l generalizing n with
  | nil => simp at h
  | cons a t ih =>
    cases n with
    | zero => simp only [nthD] at he; simp [setNth, he]
    | succ m =>
      simp only [setNth]
      rw [ih m (by simpa using h) he]

lemma setCell_setCell (g : Grid) (row col v w : ℤ) :
    setCell (setCell g row col v) row col w = setCell g row col w := by
  unfold setCell
  by_cases hw : 0 ≤ row ∧ 0 ≤ col
  · simp only [if_pos hw]
    by_cases hr : row.toNat < g.length
    · rw [nthD_setNth_self _ _ _ _ hr, setNth_setNth, setNth_setNth]
    · rw [setNth_of_le_length g _ _ (by omega),
        setNth_of_le_length g _ _ (by omega)]
  · simp only [if_neg hw]

lemma setCell_eq_self {g : Grid} {row col v : ℤ}
    (hv : isValidPos g row col = true) (hsq : Square g)
    (he : cellAt g row col = v) : setCell g row col v = g := by
  obtain ⟨h1, h2, h3, h4⟩ := isValidPos_iff.mp hv
  have hpos : 0 ≤ row ∧ 0 ≤ col := ⟨h1, h3⟩
  have hrow : row.toNat < g.length := by omega
  have hrl : (nthD g row.toNat []).length = g.length :=
    hsq _ (mem_of_nthD g row.toNat [] hrow)
  have hcol : col.toNat < (nthD g row.toNat []).length := by omega
  rw [cellAt, if_pos hpos] at he
  rw [setCell, if_pos hpos, setNth_eq_of_nthD _ _ _ _ hcol he,
    setNth_eq_of_nthD _ _ _ _ hrow rfl]

lemma mem_setNth {α : Type} {l : List α} {n : ℕ} {v x : α}
    (h : x ∈ setNth l n v) : x = v ∨ x ∈ l := by
  induction l generalizing n with
  | nil => simp [setNth] at h
  | cons a t ih =>
    cases n with
    | zero =>
      rcases List.mem_cons.mp h with h | h
      · exact Or.inl h
      · exact Or.inr (List.mem_cons_of_mem a h)
    | succ m =>
      rcases List.mem_cons.mp h with h | h
      · exact Or.inr (h ▸ List.mem_cons_self a t)
      · rcases ih h with h | h
        · exact Or.inl h
        · exact Or.inr (List.mem_cons_of_mem a h)

lemma square_setCell {g : Grid} (row col v : ℤ) (hsq : Square g) :
    Square (setCell g row col v) := by
  intro r hr
  rw [length_setCell]
  unfold setCell at hr
  split at hr
  · rcases lt_or_ge row.toNat g.length with hlt | hge
    · rcases mem_setNth hr with heq | hmem
      · subst heq
        rw [length_setNth]
        exact hsq _ (mem_of_nthD g row.toNat [] hlt)
      · exact hsq _ hmem
    · rw [setNth_of_le_length _ _ _ hge] at hr
      exact hsq _ hr
  · exact hsq _ hr

lemma isValidPos_setCell (g : Grid) (row col v r c : ℤ) :
    isValidPos (setCell g row col v) r c = isValidPos g r c := by
  simp [isValidPos, length_setCell]

lemma cellAt_allZero {g : Grid}
    (hz : ∀ row ∈ g, ∀ x ∈ row, x = (0 : ℤ)) (r c : ℤ) : cellAt g r c = 0 := by
  unfold cellAt
  split
  · rcases lt_or_ge r.toNat g.length with hr | hr
    · rcases lt_or_ge c.toNat (nthD g r.toNat []).length with hc | hc
      · exact hz _ (mem_of_nthD g r.toNat [] hr) _
          (mem_of_nthD (nthD g r.toNat []) c.toNat 0 hc)
      · exact nthD_of_le_length _ _ _ hc
    · rw [nthD_of_le_length _ _ _ hr]; rfl
  · rfl

lemma nthD_lt {α : Type} {l : List α} {n : ℕ} (h : n < l.length) (d : α) :
    nthD l n d = l.get ⟨n, h⟩ := by
  induction l generalizing n with
  | nil => simp at h
  | cons a t ih =>
    cases n with
    | zero => rfl
    | succ m => exact ih (by simpa using h)

lemma nthD_range_map {α : Type} (m : ℕ) (f : ℕ → α) (k : ℕ) (d : α) :
    nthD ((List.range m).map f) k d = if k < m then f k else d := by
  split
  · next h =>
    rw [nthD_lt (by simpa using h) d]
    simp [List.get_eq_getElem]
  · next h =>
    exact nthD_of_le_length _ _ _ (by simpa using Nat.le_of_not_lt h)

/-- Value of a cell in a grid built row-by-row from `List.range`. -/
lemma cellAt_rangeGrid (m : ℕ) (f : ℕ → ℕ → ℤ) (r c : ℤ) :
    cellAt ((List.range m).map fun i => (List.range m).map fun j => f i j) r c
      = if 0 ≤ r ∧ r < (m : ℤ) ∧ 0 ≤ c ∧ c < (m : ℤ)
        then f r.toNat c.toNat else 0 := by
  unfold cellAt
  by_cases hw : 0 ≤ r ∧ 0 ≤ c
  · rw [if_pos hw, nthD_range_map]
    by_cases hr : r.toNat < m
    · rw [if_pos hr, nthD_range_map]
      by_cases hc : c.toNat < m
      · rw [if_pos hc, if_pos (by constructor <;> omega)]
      · rw [if_neg hc, if_neg (by omega)]
    · rw [if_neg hr]
      have : nthD ([] : List ℤ) c.toNat 0 = 0 := rfl
      rw [this, if_neg (by omega)]
  · rw [if_neg hw, if_neg (by tauto)]

lemma regionsOf_append (s : ℤ) (l : List (ℤ × ℤ)) (x : ℤ × ℤ) :
    regionsOf s (l ++ [x]) = addActiveRegion s (regionsOf s l) x.1 x.2 := by
  simp [regionsOf, List.foldl_append]

lemma mkSize_ge (n : ℤ) : 15 ≤ mkSize n := by
  rw [mkSize]
  split
  · next h =>
    simp only [isValidSize, Bool.and_eq_true, decide_eq_true_eq] at h
    omega
  · omega

lemma wf_mkBoard (n : ℤ) : BoardWF (mkBoard n) := by
  have hge := mkSize_ge n
  have hz : ∀ row ∈ (mkBoard n).grid, ∀ x ∈ row, x = (0 : ℤ) := by
    intro row hrow x hx
    simp only [mkBoard] at hrow
    rw [List.eq_of_mem_replicate hrow] at hx
    exact List.eq_of_mem_replicate hx
  refine ⟨?_, ?_, ?_, ?_, ?_⟩
  · show ((List.replicate (mkSize n).toNat
      (List.replicate (mkSize n).toNat (0 : ℤ))).length : ℤ) = mkSize n
    rw [List.length_replicate]
    omega
  · intro row hrow
    simp only [mkBoard] at hrow ⊢
    rw [List.eq_of_mem_replicate hrow]
    simp
  · intro row col
    constructor
    · intro h; simp [mkBoard] at h
    · rintro ⟨-, hne⟩
      exact absurd (cellAt_allZero hz row col) hne
  · show (([] : List (ℤ × ℤ))).Nodup
    exact List.nodup_nil
  · rfl

lemma wf_makeMove {b b' : Board} {row col p : ℤ} (hwf : BoardWF b)
    (h : b.makeMove row col p = some b') : BoardWF b' := by
  rw [Board.makeMove] at h
  split at h
  · exact absurd h (by simp)
  · next hcond =>
    push_neg at hcond
    obtain ⟨hvm, hp⟩ := hcond
    rw [Board.isValidMove, Bool.and_eq_true, decide_eq_true_eq] at hvm
    obtain ⟨hib, hempty⟩ := hvm
    rw [Board.isInBounds] at hib
    simp only [Bool.and_eq_true, decide_eq_true_eq] at hib
    have hvp : isValidPos b.grid row col = true := by
      rw [isValidPos_iff, hwf.size_eq]
      tauto
    have hpne : p ≠ 0 := by rcases hp with h | h <;> omega
    cases h
    refine ⟨?_, ?_, ?_, ?_, ?_⟩
    · simpa [hwf.size_eq] using rfl
    · exact square_setCell row col p hwf.square
    · intro r c
      by_cases heq : row = r ∧ col = c
      · obtain ⟨h1, h2⟩ := heq; subst h1; subst h2
        rw [List.mem_append, List.mem_singleton, isValidPos_setCell,
          cellAt_setCell_self p hvp hwf.square]
        constructor
        · intro _; exact ⟨hvp, hpne⟩
        · intro _; exact Or.inr rfl
      · simp only [List.mem_append, List.mem_singleton]
        rw [isValidPos_setCell, cellAt_setCell_ne p heq]
        constructor
        · rintro (hm | hm)
          · exact (hwf.mirror r c).mp hm
          · exact absurd ⟨congrArg Prod.fst hm.symm,
              congrArg Prod.snd hm.symm⟩ heq
        · intro hrc
          exact Or.inl ((hwf.mirror r c).mpr hrc)
    · rw [List.nodup_append]
      refine ⟨hwf.nodup, List.nodup_singleton _, ?_⟩
      intro x hx hx'
      rw [List.mem_singleton] at hx'
      subst hx'
      have := (hwf.mirror row col).mp hx
      exact this.2 hempty
    · rw [regionsOf_append, hwf.regions]

lemma wf_undoLastMove {b b' : Board} (hwf : BoardWF b)
    (h : b.undoLastMove = some b') : BoardWF b' := by
  rw [Board.undoLastMove] at h
  rcases hl : b.moveHistory.getLast? with - | m
  · rw [hl] at h; exact absurd h (by simp)
  · obtain ⟨row, col, q⟩ := m
    rw [hl] at h
    simp only [Option.some.injEq] at h
    subst h
    refine ⟨?_, ?_, ?_, ?_, ?_⟩
    · simpa [hwf.size_eq] using rfl
    · exact square_setCell row col 0 hwf.square
    · intro r c
      by_cases heq : row = r ∧ col = c
      · obtain ⟨h1, h2⟩ := heq; subst h1; subst h2
        constructor
        · intro hm
          have := (hwf.mirror row col).mp (List.mem_of_mem_erase hm)
          exact absurd hm (by
            rw [(hwf.nodup).mem_erase_iff]
            simp)
        · intro hrc
          by_cases hv : isValidPos b.grid row col = true
          · rw [cellAt_setCell_self 0 hv hwf.square] at hrc
            exact absurd rfl hrc.2
          · rw [isValidPos_setCell] at hrc
            exact absurd hrc.1 hv
      · rw [List.mem_erase_of_ne (by
            intro hx
            exact heq ⟨congrArg Prod.fst hx.symm, congrArg Prod.snd hx.symm⟩),
          isValidPos_setCell, cellAt_setCell_ne 0 heq]
        exact hwf.mirror r c
    · exact hwf.nodup.erase _
    · rfl

lemma cellAt_copyGrid (g : Grid) (copySize : ℤ) (n : ℤ) (hn : 0 ≤ n)
    (r c : ℤ) :
    cellAt (copyGrid g copySize n) r c =
      if 0 ≤ r ∧ r < n ∧ 0 ≤ c ∧ c < n then
        (if r < copySize ∧ c < copySize then cellAt g r c else 0)
      else 0 := by
  rw [copyGrid, cellAt_rangeGrid]
  by_cases hb : 0 ≤ r ∧ r < n ∧ 0 ≤ c ∧ c < n
  · obtain ⟨h1, h2, h3, h4⟩ := hb
    have hr : ((r.toNat : ℤ)) = r := by omega
    have hc : ((c.toNat : ℤ)) = c := by omega
    rw [if_pos (show 0 ≤ r ∧ r < ((n.toNat : ℤ)) ∧ 0 ≤ c ∧ c < ((n.toNat : ℤ))
        from by omega),
      if_pos (show 0 ≤ r ∧ r < n ∧ 0 ≤ c ∧ c < n from ⟨h1, h2, h3, h4⟩),
      hr, hc]
  · rw [if_neg (by omega), if_neg hb]

@[simp] lemma length_copyGrid (g : Grid) (copySize n : ℤ) :
    (copyGrid g copySize n).length = n.toNat := by
  simp [copyGrid]

lemma square_copyGrid (g : Grid) (copySize n : ℤ) :
    Square (copyGrid g copySize n) := by
  intro row hrow
  simp only [copyGrid, List.mem_map] at hrow
  obtain ⟨i, -, hi⟩ := hrow
  subst hi
  simp [copyGrid]

lemma mem_keepInBounds {n : ℤ} {occ : List (ℤ × ℤ)} {x : ℤ × ℤ} :
    x ∈ keepInBounds n occ ↔
      x ∈ occ ∧ (0 ≤ x.1 ∧ x.1 < n ∧ 0 ≤ x.2 ∧ x.2 < n) := by
  simp [keepInBounds, List.mem_filter, and_assoc]

lemma wf_resize {b b' : Board} {n : ℤ} (hwf : BoardWF b)
    (h : b.resize n = some b') : BoardWF b' := by
  rw [Board.resize] at h
  split at h
  · exact absurd h (by simp)
  · next hcond =>
    push_neg at hcond
    rw [isValidSize] at hcond
    simp only [Bool.and_eq_true, decide_eq_true_eq] at hcond
    obtain ⟨hn15, hn100⟩ := hcond
    simp only [Option.some.injEq] at h
    subst h
    have hn0 : (0 : ℤ) ≤ n := by omega
    refine ⟨?_, square_copyGrid _ _ _, ?_, hwf.nodup.filter _, rfl⟩
    · show (((copyGrid b.grid (min b.size n) n).length : ℤ)) = n
      rw [length_copyGrid]
      omega
    · intro r c
      show (r, c) ∈ keepInBounds n b.occupiedCells ↔ _
      rw [mem_keepInBounds, hwf.mirror r c]
      have hval : ∀ r' c' : ℤ,
          isValidPos (copyGrid b.grid (min b.size n) n) r' c' = true ↔
            (0 ≤ r' ∧ r' < n ∧ 0 ≤ c' ∧ c' < n) := by
        intro r' c'
        rw [isValidPos_iff, length_copyGrid]
        omega
      constructor
      · rintro ⟨⟨hvo, hne⟩, hb1, hb2, hb3, hb4⟩
        obtain ⟨g1, g2, g3, g4⟩ := isValidPos_iff.mp hvo
        rw [hwf.size_eq] at g2 g4
        refine ⟨(hval r c).mpr ⟨hb1, hb2, hb3, hb4⟩, ?_⟩
        rw [cellAt_copyGrid _ _ _ hn0, if_pos ⟨hb1, hb2, hb3, hb4⟩,
          if_pos ⟨by omega, by omega⟩]
        exact hne
      · rintro ⟨hvn, hne⟩
        obtain ⟨g1, g2, g3, g4⟩ := (hval r c).mp hvn
        rw [cellAt_copyGrid _ _ _ hn0, if_pos ⟨g1, g2, g3, g4⟩] at hne
        split at hne
        · next hcopy =>
          refine ⟨⟨?_, hne⟩, g1, g2, g3, g4⟩
          rw [isValidPos_iff, hwf.size_eq]
          exact ⟨g1, by omega, g3, by omega⟩
        · exact absurd rfl hne

lemma wf_reset (b : Board) (hwf : BoardWF b) : BoardWF b.reset := by
  have hz : ∀ row ∈ (b.reset).grid, ∀ x ∈ row, x = (0 : ℤ) := by
    intro row hrow x hx
    simp only [Board.reset, List.mem_map] at hrow
    obtain ⟨row0, -, hr0⟩ := hrow
    subst hr0
    simp only [List.mem_map] at hx
    obtain ⟨-, -, hx0⟩ := hx
    exact hx0.symm
  refine ⟨?_, ?_, ?_, ?_, ?_⟩
  · simpa [Board.reset] using hwf.size_eq
  · intro row hrow
    simp only [Board.reset, List.length_map] at hrow ⊢
    simp only [List.mem_map] at hrow
    obtain ⟨row0, hr0, hr1⟩ := hrow
    subst hr1
    simpa using hwf.square _ hr0
  · intro r c
    constructor
    · intro h; simp [Board.reset] at h
    · rintro ⟨-, hne⟩
      exact absurd (cellAt_allZero hz r c) hne
  · exact List.nodup_nil
  · rfl

/-- Every reachable board satisfies the structural invariants. -/
lemma reachable_wf {b : Board} (h : Reachable b) : BoardWF b := by
  induction h with
  | init n => exact wf_mkBoard n
  | move row col p _ hstep ih => exact wf_makeMove ih hstep
  | undo _ hstep ih => exact wf_undoLastMove ih hstep
  | sizeChange n _ hstep ih => exact wf_resize ih hstep
  | clear _ ih => exact wf_reset _ ih

lemma undoLastMove_eq (b : Board) (row col p : ℤ)
    (h : b.moveHistory.getLast? = some (row, col, p)) :
    b.undoLastMove = some { b with
      grid := setCell b.grid row col 0
      moveCount := b.moveCount - 1
      moveHistory := b.moveHistory.dropLast
      occupiedCells := b.occupiedCells.erase (row, col)
      lastMoveRow := (b.moveHistory.dropLast.getLast?.getD (-1, -1, -1)).1
      lastMoveCol := (b.moveHistory.dropLast.getLast?.getD (-1, -1, -1)).2.1
      lastPlayer := (b.moveHistory.dropLast.getLast?.getD (-1, -1, -1)).2.2
      activeRegions :=
        regionsOf b.size (b.occupiedCells.erase (row, col)) } := by
  rw [Board.undoLastMove, h]

/-- C2: from any reachable board, a successful `makeMove` followed by
`undoLastMove` succeeds and restores the exact prior grid, move count,
occupied-cell cache and active-region set. -/
theorem C2_makeMove_undo_roundtrip {b b' : Board} {row col p : ℤ}
    (hreach : Reachable b) (h : b.makeMove row col p = some b') :
    ∃ b'', b'.undoLastMove = some b'' ∧
      b''.grid = b.grid ∧ b''.moveCount = b.moveCount ∧
      b''.occupiedCells = b.occupiedCells ∧
      b''.activeRegions = b.activeRegions := by
  have hwf := reachable_wf hreach
  rw [Board.makeMove] at h
  split at h
  · exact absurd h (by simp)
  · next hcond =>
    push_neg at hcond
    obtain ⟨hvm, hp⟩ := hcond
    rw [Board.isValidMove, Bool.and_eq_true, decide_eq_true_eq] at hvm
    obtain ⟨hib, hempty⟩ := hvm
    rw [Board.isInBounds] at hib
    simp only [Bool.and_eq_true, decide_eq_true_eq] at hib
    have hvp : isValidPos b.grid row col = true := by
      rw [isValidPos_iff, hwf.size_eq]
      tauto
    cases h
    have hL : (b.moveHistory ++ [(row, col, p)]).getLast? =
        some (row, col, p) := List.getLast?_concat _
    have hnot : (row, col) ∉ b.occupiedCells := fun hm =>
      ((hwf.mirror row col).mp hm).2 hempty
    have hocc : (b.occupiedCells ++ [(row, col)]).erase (row, col) =
        b.occupiedCells := by
      rw [List.erase_append_right _ hnot, List.erase_cons_head,
        List.append_nil]
    refine ⟨_, undoLastMove_eq _ row col p hL, ?_, ?_, ?_, ?_⟩
    · show setCell (setCell b.grid row col p) row col 0 = b.grid
      rw [setCell_setCell]
      exact setCell_eq_self hvp hwf.square hempty
    · show b.moveCount + 1 - 1 = b.moveCount
      ring
    · exact hocc
    · show regionsOf b.size ((b.occupiedCells ++ [(row, col)]).erase
        (row, col)) = b.activeRegions
      rw [hocc, hwf.regions]

/-- The board reached by playing (0,0,1) on a fresh default board. -/
def mv1 : Board := ((mkBoard 15).makeMove 0 0 1).getD (mkBoard 15)

/-- Witness for C2: the round trip evaluated on the concrete default
board after playing (0,0) for player 1. -/
theorem C2_witness :
    (mkBoard 15).makeMove 0 0 1 = some mv1 ∧
    ∃ b'', mv1.undoLastMove = some b'' ∧
      b''.grid = (mkBoard 15).grid ∧
      b''.moveCount = (mkBoard 15).moveCount ∧
      b''.occupiedCells = (mkBoard 15).occupiedCells ∧
      b''.activeRegions = (mkBoard 15).activeRegions := by
  have hm : (mkBoard 15).makeMove 0 0 1 = some mv1 := by decide
  exact ⟨hm, C2_makeMove_undo_roundtrip (Reachable.init 15) hm⟩

/-- A default 20×20 board. -/
def cb20 : Board := mkBoard 20

/-- The 20×20 board after a stone at (19,19). -/
def cb20a : Board := (cb20.makeMove 19 19 1).getD cb20

/-- The state after shrinking that board to 15×15: the stone is dropped
from the grid and the occupied-cell cache, but `moveCount` and
`moveHistory` still record it. -/
def cb20b : Board := (cb20a.resize 15).getD cb20a

/-- C3 fails on the code: a successful shrinking `resize` that drops a
stone leaves `moveCount = 1` and a one-entry history while the grid holds
no stone, so the board's own `validateState` integrity check turns false. -/
theorem C3_resize_breaks_validateState :
    cb20.makeMove 19 19 1 = some cb20a ∧
    cb20a.validateState = true ∧
    cb20a.resize 15 = some cb20b ∧
    cb20b.validateState = false ∧
    countNonEmpty cb20b.grid = 0 ∧
    cb20b.moveCount = 1 ∧
    cb20b.occupiedCells = [] ∧
    cb20b.moveHistory = [(19, 19, 1)] := by decide

/-- C4 as stated is false on the code: after a successful shrinking
`resize` the history entry (19,19,1), although out of the new 15×15
bounds, is still present in `moveHistory`. -/
theorem C4_counterexample :
    cb20a.resize 15 = some cb20b ∧
    ¬((19 : ℤ) < 15) ∧
    cb20b.moveHistory = [(19, 19, 1)] := by decide

/-- C4 (amended): `resize` rejects sizes outside [15,100]; otherwise it
succeeds, preserves every cell of the overlapping square at identical
coordinates, zeroes the rest of the new grid, filters `occupiedCells` to
the new bounds and rebuilds `activeRegions` from them — while
`moveHistory` is left unchanged rather than filtered. -/
theorem C4_resize_behavior (b : Board) (n : ℤ) :
    (isValidSize n = false → b.resize n = none) ∧
    (isValidSize n = true → ∃ b2, b.resize n = some b2 ∧
      ((b2.grid.length : ℤ)) = n ∧
      (∀ r c : ℤ, 0 ≤ r → r < min b.size n → 0 ≤ c → c < min b.size n →
        cellAt b2.grid r c = cellAt b.grid r c) ∧
      (∀ r c : ℤ, 0 ≤ r → r < n → 0 ≤ c → c < n →
        (min b.size n ≤ r ∨ min b.size n ≤ c) → cellAt b2.grid r c = 0) ∧
      b2.occupiedCells = keepInBounds n b.occupiedCells ∧
      b2.activeRegions = regionsOf n (keepInBounds n b.occupiedCells) ∧
      b2.moveHistory = b.moveHistory) := by
  constructor
  · intro hbad
    rw [Board.resize, if_pos (by simp [hbad])]
  · intro hok
    have hn0 : (0 : ℤ) ≤ n := by
      rw [isValidSize] at hok
      simp only [Bool.and_eq_true, decide_eq_true_eq] at hok
      omega
    refine ⟨{ b with
        size := n
        grid := copyGrid b.grid (min b.size n) n
        occupiedCells := keepInBounds n b.occupiedCells
        activeRegions := regionsOf n (keepInBounds n b.occupiedCells) },
      by rw [Board.resize, if_neg (by simp [hok])], ?_, ?_, ?_,
      rfl, rfl, rfl⟩
    · show (((copyGrid b.grid (min b.size n) n).length : ℤ)) = n
      rw [length_copyGrid]
      omega
    · intro r c h1 h2 h3 h4
      show cellAt (copyGrid b.grid (min b.size n) n) r c = cellAt b.grid r c
      rw [cellAt_copyGrid _ _ _ hn0,
        if_pos (show 0 ≤ r ∧ r < n ∧ 0 ≤ c ∧ c < n from by
          constructor
          · exact h1
          constructor
          · omega
          exact ⟨h3, by omega⟩),
        if_pos ⟨h2, h4⟩]
    · intro r c h1 h2 h3 h4 hout
      show cellAt (copyGrid b.grid (min b.size n) n) r c = 0
      rw [cellAt_copyGrid _ _ _ hn0, if_pos ⟨h1, h2, h3, h4⟩,
        if_neg (by omega)]

/-- Witness for C4: the amended behavior evaluated on the concrete board
`cb20a` (a 20×20 board with a stone at (19,19)), for the rejected size
101 and the accepted shrink to 15. -/
theorem C4_witness :
    (isValidSize 101 = false ∧ cb20a.resize 101 = none) ∧
    (isValidSize 15 = true ∧ ∃ b2, cb20a.resize 15 = some b2 ∧
      ((b2.grid.length : ℤ)) = 15 ∧
      (∀ r c : ℤ, 0 ≤ r → r < min cb20a.size 15 → 0 ≤ c →
        c < min cb20a.size 15 → cellAt b2.grid r c = cellAt cb20a.grid r c) ∧
      (∀ r c : ℤ, 0 ≤ r → r < 15 → 0 ≤ c → c < 15 →
        (min cb20a.size 15 ≤ r ∨ min cb20a.size 15 ≤ c) →
        cellAt b2.grid r c = 0) ∧
      b2.occupiedCells = keepInBounds 15 cb20a.occupiedCells ∧
      b2.activeRegions = regionsOf 15 (keepInBounds 15 cb20a.occupiedCells) ∧
      b2.moveHistory = cb20a.moveHistory) :=
  ⟨⟨by decide, (C4_resize_behavior cb20a 101).1 (by decide)⟩,
   ⟨by decide, (C4_resize_behavior cb20a 15).2 (by decide)⟩⟩

namespace GLV

/-! Embedding of `src/GameLogic.cpp`, the GameLogic variant used by the
AI of `src/unnamed/part_000`.  Its `countConsecutive` has exactly the
body of `GameLogic::countConsecutive` in `src/src/gamelogic.cpp`
(walk from the given cell inclusive), so `GLogic.countConsecutive` is
reused for it. -/

/-- `GameLogic::checkWin`: valid cell holding `player`, and some
direction whose outward walks plus the center reach `WIN_LENGTH = 5`. -/
def checkWin (g : Grid) (row col p : ℤ) : Bool :=
  if ¬(isValidPos g row col = true) ∨ cellAt g row col ≠ p then false
  else DIRECTIONS.any fun d =>
    decide (5 ≤ GLogic.countConsecutive g (row + d.1) (col + d.2) d.1 d.2 p +
      GLogic.countConsecutive g (row - d.1) (col - d.2) (-d.1) (-d.2) p + 1)

/-- `GameLogic::getPatternScore(consecutive, openEnds)` of this variant
(numeric table keyed on the counts; a run with no open end scores 0). -/
def getPatternScore (consecutive openEnds : ℕ) : ℤ :=
  if 5 ≤ consecutive then 1000000
  else if consecutive = 4 then
    (if openEnds = 2 then 100000 else if openEnds = 1 then 10000 else 0)
  else if consecutive = 3 then
    (if openEnds = 2 then 10000 else if openEnds = 1 then 1000 else 0)
  else if consecutive = 2 then
    (if openEnds = 2 then 1000 else if openEnds = 1 then 100 else 0)
  else if consecutive = 1 then
    (if openEnds = 2 then 100 else if openEnds = 1 then 10 else 0)
  else 0

/-- `GameLogic::evaluateLine`: count both outward walks, probe the cell
one past each walk for an open end, and score the pattern. -/
def evaluateLine (g : Grid) (row col dx dy p : ℤ) : ℤ :=
  let positiveCount := GLogic.countConsecutive g (row + dx) (col + dy) dx dy p
  let negativeCount :=
    GLogic.countConsecutive g (row - dx) (col - dy) (-dx) (-dy) p
  let posEndX := row + dx * (positiveCount + 1)
  let posEndY := col + dy * (positiveCount + 1)
  let negEndX := row - dx * (negativeCount + 1)
  let negEndY := col - dy * (negativeCount + 1)
  getPatternScore (positiveCount + negativeCount + 1)
    ((if isValidPos g posEndX posEndY = true ∧ cellAt g posEndX posEndY = 0
      then 1 else 0) +
     (if isValidPos g negEndX negEndY = true ∧ cellAt g negEndX negEndY = 0
      then 1 else 0))

/-- `GameLogic::evaluatePosition` of this variant: zero off the board,
otherwise the sum of the four direction line scores. -/
def evaluatePosition (g : Grid) (row col p : ℤ) : ℤ :=
  if ¬(isValidPos g row col = true) then 0
  else (DIRECTIONS.map fun d => evaluateLine g row col d.1 d.2 p).sum

/-- `GameLogic::hasWinningThreat`: place the piece on a copy and test
`checkWin` (the caller guarantees an empty in-bounds cell). -/
def hasWinningThreat (g : Grid) (row col p : ℤ) : Bool :=
  checkWin (setCell g row col p) row col p

/-- `GameLogic::hasBlockingThreat`: if some axis neighbor is an opponent
stone, test whether the opponent would win by playing here. -/
def hasBlockingThreat (g : Grid) (row col p : ℤ) : Bool :=
  DIRECTIONS.any fun d =>
    ([-1, 1] : List ℤ).any fun s =>
      isValidPos g (row + d.1 * s) (col + d.2 * s) &&
      decide (cellAt g (row + d.1 * s) (col + d.2 * s) =
        (if p = 1 then 2 else 1)) &&
      checkWin (setCell g row col (if p = 1 then 2 else 1)) row col
        (if p = 1 then 2 else 1)

end GLV

namespace AI

/-! Embedding of `src/unnamed/part_000` (class `AI`). -/

/-- `struct Move`. -/
structure Move where
  row : ℤ
  col : ℤ
  score : ℤ
deriving DecidableEq, Repr

def WIN_SCORE : ℤ := 1000000
def LOSE_SCORE : ℤ := -1000000
def INT_MIN : ℤ := -2147483648
def INT_MAX : ℤ := 2147483647
def MAX_CANDIDATES : ℕ := 20

/-- `AI::getThreatMoves`: every empty cell that creates a win for the AI
(score `WIN_SCORE`) or blocks an opponent win (score `WIN_SCORE - 1`),
scanned over the whole board in row-major order. -/
def getThreatMoves (ai : ℤ) (g : Grid) : List Move :=
  (List.range g.length).flatMap fun (i : ℕ) =>
    (List.range g.length).filterMap fun (j : ℕ) =>
      if cellAt g (i : ℤ) (j : ℤ) = 0 then
        if GLV.hasWinningThreat g (i : ℤ) (j : ℤ) ai = true then
          some ⟨(i : ℤ), (j : ℤ), WIN_SCORE⟩
        else if GLV.hasBlockingThreat g (i : ℤ) (j : ℤ) ai = true then
          some ⟨(i : ℤ), (j : ℤ), WIN_SCORE - 1⟩
        else none
      else none

/-- The `hasNearby` probe of the candidate generators: some stone lies
within Chebyshev distance 2 of the cell. -/
def nearStone (g : Grid) (r c : ℤ) : Bool :=
  ([-2, -1, 0, 1, 2] : List ℤ).any fun di =>
    ([-2, -1, 0, 1, 2] : List ℤ).any fun dj =>
      isValidPos g (r + di) (c + dj) &&
      decide (cellAt g (r + di) (c + dj) ≠ 0)

/-- `AI::getNeighborMoves`: every empty cell within radius
`SEARCH_RADIUS = 2` of an existing stone, once each.  The C++ visits
stones and marks neighbors in a `visited` matrix; the row-major
membership scan below produces the same cells, and their order is
irrelevant because `generateCandidateMoves` sorts its output. -/
def getNeighborMoves (g : Grid) : List Move :=
  (List.range g.length).flatMap fun (i : ℕ) =>
    (List.range g.length).filterMap fun (j : ℕ) =>
      if cellAt g (i : ℤ) (j : ℤ) = 0 ∧ nearStone g (i : ℤ) (j : ℤ) = true
      then some ⟨(i : ℤ), (j : ℤ), 0⟩
      else none

/-- The strict row-major comparator passed to `std::sort` in
`AI::generateCandidateMoves`. -/
def lexLt (a b : Move) : Bool :=
  if a.row ≠ b.row then decide (a.row < b.row) else decide (a.col < b.col)

/-- One insertion step of the position sort (stable: a move is placed
after existing moves at the same position). -/
def insertLex (x : Move) : List Move → List Move
  | [] => [x]
  | y :: t => if lexLt x y = true then x :: y :: t else y :: insertLex x t

/-- The `std::sort` by position.  `std::sort` is unstable, so which of
two equal-position entries (they can differ only in the dead `score`
field, overwritten by `sortMoves` before any use) comes first is
unspecified in C++; the stable insertion sort fixes one admissible
order. -/
def sortLex (l : List Move) : List Move :=
  l.foldl (fun acc x => insertLex x acc) []

/-- Tail of the `std::unique` scan: drop entries whose position equals
the last kept entry `prev`. -/
def uniquePosAux (prev : Move) : List Move → List Move
  | [] => []
  | y :: t =>
    if prev.row = y.row ∧ prev.col = y.col then uniquePosAux prev t
    else y :: uniquePosAux y t

/-- The `std::unique` by position: drop adjacent equal-position entries,
keeping the first of each run. -/
def uniquePos : List Move → List Move
  | [] => []
  | x :: t => x :: uniquePosAux x t

/-- `AI::generateCandidateMoves`: threat moves then neighbor moves,
sorted by position, deduplicated, truncated to `MAX_CANDIDATES = 20`. -/
def generateCandidateMoves (ai : ℤ) (g : Grid) : List Move :=
  (uniquePos (sortLex (getThreatMoves ai g ++ getNeighborMoves g))).take
    MAX_CANDIDATES

/-- `AI::quickEvaluateMove`. -/
def quickEvaluateMove (g : Grid) (row col p : ℤ) : ℤ :=
  GLV.evaluatePosition g row col p

/-- One insertion step of the score sort (descending). -/
def insertDesc (x : Move) : List Move → List Move
  | [] => [x]
  | y :: t => if x.score > y.score then x :: y :: t else y :: insertDesc x t

/-- `AI::sortMoves`: recompute each move's score with
`quickEvaluateMove` for the AI player, then sort descending by score
(`std::sort`; tie order unspecified in C++ and never observed). -/
def sortMoves (ai : ℤ) (g : Grid) (moves : List Move) : List Move :=
  (moves.map fun m => Move.mk m.row m.col
    (quickEvaluateMove g m.row m.col ai)).foldl
    (fun acc x => insertDesc x acc) []

/-- `AI::evaluatePlayerPosition`: sum `evaluatePosition` over the empty
cells. -/
def evaluatePlayerPosition (g : Grid) (p : ℤ) : ℤ :=
  ((List.range g.length).map fun (i : ℕ) =>
    ((List.range g.length).map fun (j : ℕ) =>
      if cellAt g (i : ℤ) (j : ℤ) = 0 then
        GLV.evaluatePosition g (i : ℤ) (j : ℤ) p
      else 0).sum).sum

/-- `AI::evaluateBoard`: AI score minus opponent score. -/
def evaluateBoard (ai hu : ℤ) (g : Grid) : ℤ :=
  evaluatePlayerPosition g ai - evaluatePlayerPosition g hu

/-- `AI::getFirstMove`: the center cell (default score 0). -/
def getFirstMove (g : Grid) : Move :=
  ⟨(g.length : ℤ) / 2, (g.length : ℤ) / 2, 0⟩

/-- The `isEmpty` scan at the top of `AI::findBestMove`. -/
def isEmptyGrid (g : Grid) : Bool :=
  g.all fun row => row.all fun c => decide (c = 0)

/-- The loop body of the immediate win/block scans in
`AI::findBestMove`: place `p` on a copy of the board at the move's cell
and test `checkWin` there. -/
def completesFive (g : Grid) (p : ℤ) (m : Move) : Bool :=
  GLV.checkWin (setCell g m.row m.col p) m.row m.col p

mutual

/-- `AI::minimax` with alpha–beta pruning, in state-passing form: the
C++ mutates `board` in place and undoes each trial move, so the
embedding returns the score together with the board as left behind by
the call.  `depth` is the C++ `depth` argument (a natural number: the
callers pass `maxDepth - 1 ≥ 1`). -/
def minimax (ai hu : ℤ) (depth : ℕ) (b : Grid) (isMax : Bool)
    (alpha beta lastRow lastCol : ℤ) : ℤ × Grid :=
  if 0 ≤ lastRow ∧ 0 ≤ lastCol ∧
      GLV.checkWin b lastRow lastCol (cellAt b lastRow lastCol) = true then
    (if cellAt b lastRow lastCol = ai then WIN_SCORE + depth
     else LOSE_SCORE - depth, b)
  else if depth = 0 then (evaluateBoard ai hu b, b)
  else if (generateCandidateMoves ai b).isEmpty = true then
    (evaluateBoard ai hu b, b)
  else if isMax then
    loopMax ai hu (depth - 1) (sortMoves ai b (generateCandidateMoves ai b))
      b INT_MIN alpha beta
  else
    loopMin ai hu (depth - 1) (sortMoves ai b (generateCandidateMoves ai b))
      b INT_MAX alpha beta
termination_by (depth, 0, 0)

/-- The maximizing for-loop of `AI::minimax`: play the move for the AI,
recurse, undo, update `maxEval`/`alpha`, and break on `beta ≤ alpha`. -/
def loopMax (ai hu : ℤ) (depth : ℕ) (moves : List Move) (b : Grid)
    (maxEval alpha beta : ℤ) : ℤ × Grid :=
  match moves with
  | [] => (maxEval, b)
  | m :: rest =>
    let r := minimax ai hu depth (setCell b m.row m.col ai) false alpha beta
      m.row m.col
    let b3 := setCell r.2 m.row m.col 0
    if beta ≤ max alpha r.1 then (max maxEval r.1, b3)
    else loopMax ai hu depth rest b3 (max maxEval r.1) (max alpha r.1) beta
termination_by (depth, 1, moves.length)

/-- The minimizing for-loop of `AI::minimax`: play the move for the
opponent, recurse, undo, update `minEval`/`beta`, and break on
`beta ≤ alpha`. -/
def loopMin (ai hu : ℤ) (depth : ℕ) (moves : List Move) (b : Grid)
    (minEval alpha beta : ℤ) : ℤ × Grid :=
  match moves with
  | [] => (minEval, b)
  | m :: rest =>
    let r := minimax ai hu depth (setCell b m.row m.col hu) true alpha beta
      m.row m.col
    let b3 := setCell r.2 m.row m.col 0
    if min beta r.1 ≤ alpha then (min minEval r.1, b3)
    else loopMin ai hu depth rest b3 (min minEval r.1) alpha (min beta r.1)
termination_by (depth, 1, moves.length)

end

/-- `AI::findBestMove`.  The process-wide RNG of `AI::getRandomMove`
(reached only when no candidate exists) is modelled by the oracle
`pick`; `maxDepth` is the difficulty cast to an integer (2, 4 or 6). -/
def findBestMove (ai hu : ℤ) (maxDepth : ℕ) (pick : Grid → Move)
    (g : Grid) : Move :=
  if isEmptyGrid g = true then getFirstMove g
  else if (generateCandidateMoves ai g).isEmpty = true then pick g
  else
    match (generateCandidateMoves ai g).find? (completesFive g ai) with
    | some m => ⟨m.row, m.col, WIN_SCORE⟩
    | none =>
      match (generateCandidateMoves ai g).find? (completesFive g hu) with
      | some m => ⟨m.row, m.col, WIN_SCORE - 1⟩
      | none =>
        (sortMoves ai g (generateCandidateMoves ai g)).foldl
          (fun best m =>
            let s := (minimax ai hu (maxDepth - 1)
              (setCell g m.row m.col ai) false INT_MIN INT_MAX
              m.row m.col).1
            if s > best.score then ⟨m.row, m.col, s⟩ else best)
          ⟨-1, -1, INT_MIN⟩

end AI

namespace AI

lemma mem_insertLex {x a : Move} {l : List Move} :
    a ∈ insertLex x l ↔ a = x ∨ a ∈ l := by
  induction l with
  | nil => simp [insertLex]
  | cons y t ih =>
    rw [insertLex]
    split
    · simp
    · rw [List.mem_cons, ih, List.mem_cons]
      tauto

lemma mem_sortLex {a : Move} {l : List Move} : a ∈ sortLex l ↔ a ∈ l := by
  have key : ∀ (l acc : List Move),
      a ∈ l.foldl (fun acc x => insertLex x acc) acc ↔ a ∈ acc ∨ a ∈ l := by
    intro l
    induction l with
    | nil => simp
    | cons x t ih =>
      intro acc
      rw [List.foldl_cons, ih, mem_insertLex, List.mem_cons]
      tauto
  rw [sortLex, key]
  simp

lemma mem_uniquePosAux {a : Move} {l : List Move} :
    ∀ {prev : Move}, a ∈ uniquePosAux prev l → a ∈ l := by
  induction l with
  | nil => intro prev h; simpa [uniquePosAux] using h
  | cons y t ih =>
    intro prev h
    rw [uniquePosAux] at h
    split at h
    · exact List.mem_cons_of_mem _ (ih h)
    · rcases List.mem_cons.mp h with h' | h'
      · exact h' ▸ List.mem_cons_self _ _
      · exact List.mem_cons_of_mem _ (ih h')

lemma mem_uniquePos {a : Move} {l : List Move} (h : a ∈ uniquePos l) :
    a ∈ l := by
  cases l with
  | nil => simpa [uniquePos] using h
  | cons x t =>
    rw [uniquePos] at h
    rcases List.mem_cons.mp h with h' | h'
    · exact h' ▸ List.mem_cons_self _ _
    · exact List.mem_cons_of_mem _ (mem_uniquePosAux h')

lemma mem_getThreatMoves {ai : ℤ} {g : Grid} {m : Move}
    (h : m ∈ getThreatMoves ai g) :
    isValidPos g m.row m.col = true ∧ cellAt g m.row m.col = 0 := by
  rw [getThreatMoves, List.mem_flatMap] at h
  obtain ⟨i, hi, hm⟩ := h
  rw [List.mem_filterMap] at hm
  obtain ⟨j, hj, hm⟩ := hm
  rw [List.mem_range] at hi hj
  split at hm
  · next hcell =>
    have hrc : m.row = (i : ℤ) ∧ m.col = (j : ℤ) := by
      split at hm
      · cases Option.some.inj hm; exact ⟨rfl, rfl⟩
      · split at hm
        · cases Option.some.inj hm; exact ⟨rfl, rfl⟩
        · exact absurd hm (by simp)
    rw [hrc.1, hrc.2]
    refine ⟨?_, hcell⟩
    rw [isValidPos_iff]
    constructor
    · omega
    constructor
    · exact_mod_cast hi
    constructor
    · omega
    · exact_mod_cast hj
  · exact absurd hm (by simp)

lemma mem_getNeighborMoves {g : Grid} {m : Move}
    (h : m ∈ getNeighborMoves g) :
    isValidPos g m.row m.col = true ∧ cellAt g m.row m.col = 0 := by
  rw [getNeighborMoves, List.mem_flatMap] at h
  obtain ⟨i, hi, hm⟩ := h
  rw [List.mem_filterMap] at hm
  obtain ⟨j, hj, hm⟩ := hm
  rw [List.mem_range] at hi hj
  split at hm
  · next hcell =>
    cases Option.some.inj hm
    show isValidPos g (i : ℤ) (j : ℤ) = true ∧ cellAt g (i : ℤ) (j : ℤ) = 0
    refine ⟨?_, hcell.1⟩
    rw [isValidPos_iff]
    constructor
    · omega
    constructor
    · exact_mod_cast hi
    constructor
    · omega
    · exact_mod_cast hj
  · exact absurd hm (by simp)

lemma mem_generateCandidateMoves {ai : ℤ} {g : Grid} {m : Move}
    (h : m ∈ generateCandidateMoves ai g) :
    isValidPos g m.row m.col = true ∧ cellAt g m.row m.col = 0 := by
  rw [generateCandidateMoves] at h
  have h1 := mem_uniquePos (List.take_subset _ _ h)
  rw [mem_sortLex, List.mem_append] at h1
  rcases h1 with h1 | h1
  · exact mem_getThreatMoves h1
  · exact mem_getNeighborMoves h1

lemma mem_insertDesc {x a : Move} {l : List Move} :
    a ∈ insertDesc x l ↔ a = x ∨ a ∈ l := by
  induction l with
  | nil => simp [insertDesc]
  | cons y t ih =>
    rw [insertDesc]
    split
    · simp
    · rw [List.mem_cons, ih, List.mem_cons]
      tauto

lemma sortMoves_position {ai : ℤ} {g : Grid} {ms : List Move} {m : Move}
    (h : m ∈ sortMoves ai g ms) :
    ∃ m' ∈ ms, m.row = m'.row ∧ m.col = m'.col := by
  have key : ∀ (l acc : List Move),
      m ∈ l.foldl (fun acc x => insertDesc x acc) acc ↔ m ∈ acc ∨ m ∈ l := by
    intro l
    induction l with
    | nil => simp
    | cons x t ih =>
      intro acc
      rw [List.foldl_cons, ih, mem_insertDesc, List.mem_cons]
      tauto
  rw [sortMoves, key] at h
  rcases h with h | h
  · simp at h
  · rw [List.mem_map] at h
    obtain ⟨m', hm', he⟩ := h
    exact ⟨m', hm', by rw [← he], by rw [← he]⟩

lemma loopMax_snd {ai hu : ℤ} {d : ℕ}
    (IH : ∀ (b : Grid) (alpha beta lr lc : ℤ), Square b →
      (minimax ai hu d b false alpha beta lr lc).2 = b)
    (moves : List Move) :
    ∀ (b : Grid) (mE alpha beta : ℤ), Square b →
      (∀ m ∈ moves, isValidPos b m.row m.col = true ∧
        cellAt b m.row m.col = 0) →
      (loopMax ai hu d moves b mE alpha beta).2 = b := by
  induction moves with
  | nil => intro b mE alpha beta _ _; rw [loopMax]
  | cons m rest ih =>
    intro b mE alpha beta hsq hmv
    obtain ⟨hv, he⟩ := hmv m (List.mem_cons_self _ _)
    have hr2 : (minimax ai hu d (setCell b m.row m.col ai) false alpha beta
        m.row m.col).2 = setCell b m.row m.col ai :=
      IH _ _ _ _ _ (square_setCell _ _ _ hsq)
    have hb3 : setCell (minimax ai hu d (setCell b m.row m.col ai) false
        alpha beta m.row m.col).2 m.row m.col 0 = b := by
      rw [hr2, setCell_setCell]
      exact setCell_eq_self hv hsq he
    rw [loopMax]
    split
    · exact hb3
    · rw [hb3]
      exact ih b _ _ _ hsq fun m' hm' => hmv m' (List.mem_cons_of_mem _ hm')

lemma loopMin_snd {ai hu : ℤ} {d : ℕ}
    (IH : ∀ (b : Grid) (alpha beta lr lc : ℤ), Square b →
      (minimax ai hu d b true alpha beta lr lc).2 = b)
    (moves : List Move) :
    ∀ (b : Grid) (mE alpha beta : ℤ), Square b →
      (∀ m ∈ moves, isValidPos b m.row m.col = true ∧
        cellAt b m.row m.col = 0) →
      (loopMin ai hu d moves b mE alpha beta).2 = b := by
  induction moves with
  | nil => intro b mE alpha beta _ _; rw [loopMin]
  | cons m rest ih =>
    intro b mE alpha beta hsq hmv
    obtain ⟨hv, he⟩ := hmv m (List.mem_cons_self _ _)
    have hr2 : (minimax ai hu d (setCell b m.row m.col hu) true alpha beta
        m.row m.col).2 = setCell b m.row m.col hu :=
      IH _ _ _ _ _ (square_setCell _ _ _ hsq)
    have hb3 : setCell (minimax ai hu d (setCell b m.row m.col hu) true
        alpha beta m.row m.col).2 m.row m.col 0 = b := by
      rw [hr2, setCell_setCell]
      exact setCell_eq_self hv hsq he
    rw [loopMin]
    split
    · exact hb3
    · rw [hb3]
      exact ih b _ _ _ hsq fun m' hm' => hmv m' (List.mem_cons_of_mem _ hm')

end AI

/-- C8: `minimax` (and hence `findBestMove`, which only ever mutates
fresh copies of its input grid) leaves the board it is given unchanged on
return: every in-place trial move is undone on every exit path, including
alpha-beta pruning breaks. -/
theorem C8_minimax_preserves_grid (ai hu : ℤ) (depth : ℕ) (b : Grid)
    (isMax : Bool) (alpha beta lastRow lastCol : ℤ) (hsq : Square b) :
    (AI.minimax ai hu depth b isMax alpha beta lastRow lastCol).2 = b := by
  induction depth generalizing b isMax alpha beta lastRow lastCol with
  | zero =>
    rw [AI.minimax]
    split
    · rfl
    · rw [if_pos rfl]
  | succ n ih =>
    rw [AI.minimax]
    split
    · rfl
    · rw [if_neg (by omega)]
      split
      · rfl
      · have hmv : ∀ m ∈ AI.sortMoves ai b (AI.generateCandidateMoves ai b),
            isValidPos b m.row m.col = true ∧ cellAt b m.row m.col = 0 := by
          intro m hm
          obtain ⟨m', hm', hr, hc⟩ := AI.sortMoves_position hm
          have := AI.mem_generateCandidateMoves hm'
          rw [hr, hc]
          exact this
        simp only [Nat.add_sub_cancel]
        split
        · exact AI.loopMax_snd
            (fun b' a' be' lr' lc' hsq' => ih b' false a' be' lr' lc' hsq')
            _ b _ _ _ hsq hmv
        · exact AI.loopMin_snd
            (fun b' a' be' lr' lc' hsq' => ih b' true a' be' lr' lc' hsq')
            _ b _ _ _ hsq hmv

/-- Witness for C8: evaluated on the concrete square grid `W1`. -/
theorem C8_witness :
    Square W1 ∧ (AI.minimax 2 1 1 W1 true (-5) 5 (-1) (-1)).2 = W1 :=
  ⟨by decide, C8_minimax_preserves_grid 2 1 1 W1 true (-5) 5 (-1) (-1)
    (by decide)⟩

/-- C9: on a grid whose cells are all empty, `findBestMove` returns
exactly the center cell `(size/2, size/2)` with the fixed opening score 0,
for any players, search depth and random fallback. -/
theorem C9_findBestMove_empty_center (ai hu : ℤ) (maxDepth : ℕ)
    (pick : Grid → AI.Move) (g : Grid)
    (h : ∀ row ∈ g, ∀ x ∈ row, x = (0 : ℤ)) :
    AI.findBestMove ai hu maxDepth pick g =
      ⟨(g.length : ℤ) / 2, (g.length : ℤ) / 2, 0⟩ := by
  have he : AI.isEmptyGrid g = true := by
    rw [AI.isEmptyGrid, List.all_eq_true]
    intro row hrow
    rw [List.all_eq_true]
    intro x hx
    exact decide_eq_true (h row hrow x hx)
  rw [AI.findBestMove, if_pos he]
  rfl

/-- The empty 15×15 grid. -/
def zeroG : Grid := List.replicate 15 (List.replicate 15 0)

/-- A concrete stand-in for the random-move oracle (never reached in the
witnessed calls). -/
def pick0 : Grid → AI.Move := fun _ => ⟨-1, -1, 0⟩

/-- Witness for C9: on the empty 15×15 grid the move returned is exactly
(7,7) with score 0. -/
theorem C9_witness :
    (∀ row ∈ zeroG, ∀ x ∈ row, x = (0 : ℤ)) ∧
    AI.findBestMove 2 1 4 pick0 zeroG = ⟨7, 7, 0⟩ := by
  have h : ∀ row ∈ zeroG, ∀ x ∈ row, x = (0 : ℤ) := by decide
  exact ⟨h, C9_findBestMove_empty_center 2 1 4 pick0 zeroG h⟩

/-- On a non-empty grid with a non-empty candidate list, the move
returned by `findBestMove` carries the position of some generated
candidate, or is the untouched best-move default `(-1,-1)`: every return
path of the search draws its coordinates from the candidate list. -/
lemma findBestMove_result_mem (ai hu : ℤ) (maxDepth : ℕ)
    (pick : Grid → AI.Move) (g : Grid)
    (hne : AI.isEmptyGrid g = false)
    (hcand : (AI.generateCandidateMoves ai g).isEmpty = false) :
    (∃ m ∈ AI.generateCandidateMoves ai g,
      (AI.findBestMove ai hu maxDepth pick g).row = m.row ∧
      (AI.findBestMove ai hu maxDepth pick g).col = m.col) ∨
    AI.findBestMove ai hu maxDepth pick g = ⟨-1, -1, AI.INT_MIN⟩ := by
  rw [AI.findBestMove, if_neg (by simp [hne]), if_neg (by simp [hcand])]
  cases hf : (AI.generateCandidateMoves ai g).find? (AI.completesFive g ai)
    with
  | some m =>
    exact Or.inl ⟨m, List.mem_of_find?_eq_some hf, rfl, rfl⟩
  | none =>
    cases hf2 : (AI.generateCandidateMoves ai g).find?
        (AI.completesFive g hu) with
    | some m =>
      exact Or.inl ⟨m, List.mem_of_find?_eq_some hf2, rfl, rfl⟩
    | none =>
      have key : ∀ (ms : List AI.Move) (acc : AI.Move),
          (ms.foldl (fun best m =>
            if (AI.minimax ai hu (maxDepth - 1)
                (setCell g m.row m.col ai) false AI.INT_MIN AI.INT_MAX
                m.row m.col).1 > best.score
            then ⟨m.row, m.col, (AI.minimax ai hu (maxDepth - 1)
                (setCell g m.row m.col ai) false AI.INT_MIN AI.INT_MAX
                m.row m.col).1⟩
            else best) acc) = acc ∨
          ∃ m ∈ ms, (ms.foldl (fun best m =>
            if (AI.minimax ai hu (maxDepth - 1)
                (setCell g m.row m.col ai) false AI.INT_MIN AI.INT_MAX
                m.row m.col).1 > best.score
            then ⟨m.row, m.col, (AI.minimax ai hu (maxDepth - 1)
                (setCell g m.row m.col ai) false AI.INT_MIN AI.INT_MAX
                m.row m.col).1⟩
            else best) acc).row = m.row ∧
            (ms.foldl (fun best m =>
            if (AI.minimax ai hu (maxDepth - 1)
                (setCell g m.row m.col ai) false AI.INT_MIN AI.INT_MAX
                m.row m.col).1 > best.score
            then ⟨m.row, m.col, (AI.minimax ai hu (maxDepth - 1)
                (setCell g m.row m.col ai) false AI.INT_MIN AI.INT_MAX
                m.row m.col).1⟩
            else best) acc).col = m.col := by
        intro ms
        induction ms with
        | nil => intro acc; exact Or.inl rfl
        | cons m rest ih =>
          intro acc
          rw [List.foldl_cons]
          rcases ih (if (AI.minimax ai hu (maxDepth - 1)
              (setCell g m.row m.col ai) false AI.INT_MIN AI.INT_MAX
              m.row m.col).1 > acc.score
            then ⟨m.row, m.col, (AI.minimax ai hu (maxDepth - 1)
              (setCell g m.row m.col ai) false AI.INT_MIN AI.INT_MAX
              m.row m.col).1⟩
            else acc) with heq | ⟨m', hm', hr, hc⟩
          · rw [heq]
            split
            · exact Or.inr ⟨m, List.mem_cons_self _ _, rfl, rfl⟩
            · exact Or.inl rfl
          · exact Or.inr ⟨m', List.mem_cons_of_mem _ hm', hr, hc⟩
      rcases key (AI.sortMoves ai g (AI.generateCandidateMoves ai g))
          ⟨-1, -1, AI.INT_MIN⟩ with heq | ⟨m, hm, hr, hc⟩
      · exact Or.inr heq
      · obtain ⟨m', hm', hr', hc'⟩ := AI.sortMoves_position hm
        exact Or.inl ⟨m', hm', by rw [hr, hr'], by rw [hc, hc']⟩

/-- The 7×7 counterexample grid for C7: player 1 (the AI) has four in a
row on row 6 with the winning cells (6,0) and (6,5), while the two stones
of player 2 near the top generate more than `MAX_CANDIDATES = 20`
lexicographically smaller candidate cells, so the winning cells are
truncated out of the candidate list. -/
def cexB : Grid :=
  [[0, 0, 0, 0, 0, 0, 0],
   [0, 2, 0, 0, 2, 0, 0],
   [0, 0, 0, 0, 0, 0, 0],
   [0, 0, 0, 0, 0, 0, 0],
   [0, 0, 0, 0, 0, 0, 0],
   [0, 0, 0, 0, 0, 0, 0],
   [0, 1, 1, 1, 1, 0, 0]]

/-- C7 as stated is false on the code: on `cexB` the cells completing a
five for the AI are exactly (6,0) and (6,5), yet `findBestMove` (for the
AI player 1, any difficulty — here 2) returns neither of them, because
the immediate-win scan runs over the truncated candidate list, not over
all empty cells. -/
theorem C7_counterexample :
    GLogic.findThreats cexB 1 = [(6, 0), (6, 5)] ∧
    ((AI.findBestMove 1 2 2 pick0 cexB).row,
      (AI.findBestMove 1 2 2 pick0 cexB).col) ≠ ((6 : ℤ), (0 : ℤ)) ∧
    ((AI.findBestMove 1 2 2 pick0 cexB).row,
      (AI.findBestMove 1 2 2 pick0 cexB).col) ≠ ((6 : ℤ), (5 : ℤ)) := by
  have hmem := findBestMove_result_mem 1 2 2 pick0 cexB (by decide)
    (by decide)
  have hnot : ∀ m ∈ AI.generateCandidateMoves 1 cexB,
      ¬(m.row = 6 ∧ m.col = 0) ∧ ¬(m.row = 6 ∧ m.col = 5) := by decide
  refine ⟨by decide, ?_, ?_⟩
  · rcases hmem with ⟨m, hm, hr, hc⟩ | heq
    · intro hEq
      injection hEq with h1 h2
      exact (hnot m hm).1 ⟨hr.symm.trans h1, hc.symm.trans h2⟩
    · rw [heq]; decide
  · rcases hmem with ⟨m, hm, hr, hc⟩ | heq
    · intro hEq
      injection hEq with h1 h2
      exact (hnot m hm).2 ⟨hr.symm.trans h1, hc.symm.trans h2⟩
    · rw [heq]; decide

/-- C7 (amended): the immediate-tactics scan runs over the generated
candidate list (threat cells from a whole-board scan merged with
radius-2 neighbor cells, deduplicated, truncated to `MAX_CANDIDATES`).
On a non-empty grid, if some candidate completes a five for the AI,
`findBestMove` returns the first such candidate with score 1,000,000,
short-circuiting the search; else if some candidate completes a five for
the opponent, it returns the first such with 999,999 — in both cases
regardless of the search depth setting. -/
theorem C7_amended_immediate_win_block (ai hu : ℤ) (maxDepth : ℕ)
    (pick : Grid → AI.Move) (g : Grid)
    (hne : AI.isEmptyGrid g = false) :
    (∀ m, (AI.generateCandidateMoves ai g).find? (AI.completesFive g ai) =
        some m →
      AI.findBestMove ai hu maxDepth pick g = ⟨m.row, m.col, 1000000⟩) ∧
    ((AI.generateCandidateMoves ai g).find? (AI.completesFive g ai) =
        none →
      ∀ m, (AI.generateCandidateMoves ai g).find? (AI.completesFive g hu) =
          some m →
        AI.findBestMove ai hu maxDepth pick g = ⟨m.row, m.col, 999999⟩) := by
  constructor
  · intro m hm
    have hcand : (AI.generateCandidateMoves ai g).isEmpty = false := by
      cases hc : AI.generateCandidateMoves ai g with
      | nil => rw [hc] at hm; exact absurd hm (by simp [List.find?])
      | cons x t => simp
    rw [AI.findBestMove, if_neg (by simp [hne]), if_neg (by simp [hcand]),
      hm]
    rfl
  · intro h1 m hm
    have hcand : (AI.generateCandidateMoves ai g).isEmpty = false := by
      cases hc : AI.generateCandidateMoves ai g with
      | nil => rw [hc] at hm; exact absurd hm (by simp [List.find?])
      | cons x t => simp
    rw [AI.findBestMove, if_neg (by simp [hne]), if_neg (by simp [hcand]),
      h1, hm]
    rfl

/-- A 7×7 grid where the AI (player 1) has four in a row on row 3 and the
winning cell (3,0) survives candidate truncation. -/
def cexW : Grid :=
  [[0, 0, 0, 0, 0, 0, 0],
   [0, 0, 0, 0, 0, 0, 0],
   [0, 0, 0, 0, 0, 0, 0],
   [0, 1, 1, 1, 1, 0, 0],
   [0, 0, 0, 0, 0, 0, 0],
   [0, 0, 0, 0, 0, 0, 0],
   [0, 0, 0, 0, 0, 0, 0]]

/-- Witness for C7 (amended): on `cexW` the first candidate completing a
five for the AI is (3,0), and `findBestMove` returns it with the win
sentinel 1,000,000. -/
theorem C7_witness :
    AI.isEmptyGrid cexW = false ∧
    (AI.generateCandidateMoves 1 cexW).find? (AI.completesFive cexW 1) =
      some ⟨3, 0, 1000000⟩ ∧
    AI.findBestMove 1 2 2 pick0 cexW = ⟨3, 0, 1000000⟩ := by
  have h1 : AI.isEmptyGrid cexW = false := by decide
  have h2 : (AI.generateCandidateMoves 1 cexW).find?
      (AI.completesFive cexW 1) = some ⟨3, 0, 1000000⟩ := by decide
  exact ⟨h1, h2,
    (C7_amended_immediate_win_block 1 2 2 pick0 cexW h1).1 _ h2⟩

end Caro
